import Mathlib

/-!
Verification development for the DeepRecall client-side streaming layer.

The definitions below are shallow embeddings of the TypeScript source:
  * `src/api/client.ts`   — `uploadFile`, `chatQueryStream` (SSE buffer split,
    per-line dispatch switch, request construction);
  * `src/hooks/useRAG.ts` — WebSocket `onmessage` stage handling, the
    reconnect/backoff bookkeeping, `sendMessage` callbacks, `resetState`;
  * `src/utils/index.ts`  — `mapStepStatus`;
  * `src/services/messageService.ts` — message constructors.

Text is modelled as `List Char` where character-level induction is needed
(the stream decoder) and as `String` elsewhere.  Numeric values coming from
JavaScript `number` fields (scores, counts) are modelled as `Int`: only
their ordering and equality matter to the properties below.
-/

namespace DeepRecall

/-! ## Event frame decoder (client.ts lines 92–103)

`chatQueryStream` keeps a string `buffer`, appends each decoded transport
chunk, splits on `'\n'`, pops the last (possibly incomplete) line back into
the buffer, and processes the complete lines.  `splitNl s` returns the
`'\n'`-terminated lines of `s` (the emitted frames) and the trailing
unterminated remainder (the new buffer). -/

def splitNl : List Char → List (List Char) × List Char
  | [] => ([], [])
  | c :: rest =>
    if c = '\n' then ([] :: (splitNl rest).1, (splitNl rest).2)
    else
      match (splitNl rest).1 with
      | [] => ([], c :: (splitNl rest).2)
      | l :: ls => ((c :: l) :: ls, (splitNl rest).2)

/-- One iteration of the read loop: `buffer += chunk` then split/pop. -/
def feed (buf chunk : List Char) : List (List Char) × List Char :=
  splitNl (buf ++ chunk)

/-- The whole read loop over a sequence of transport chunks: emitted
complete lines (in order) and the final buffer contents. -/
def feedChunks : List Char → List (List Char) → List (List Char) × List Char
  | buf, [] => ([], buf)
  | buf, c :: cs =>
    ((feed buf c).1 ++ (feedChunks (feed buf c).2 cs).1,
     (feedChunks (feed buf c).2 cs).2)

/-! ## Decoded payloads and the dispatch switch (client.ts lines 105–131)

Each complete line is processed by: prefix check `line.startsWith('data: ')`,
`JSON.parse(line.slice(6))` and a `switch (data.type)`.  `JSON.parse` is a
platform primitive, so the text→payload step is a parameter `parse`; the
repository's own logic (prefix check, slice, switch) is embedded below.
`StreamData.unknown` covers a successfully parsed record whose `type`
matches no case of the switch (nothing happens); a `parse` result of `none`
covers a JSON parse failure (the `catch` ignores the line). -/

structure RawChunk where
  id : String
  content : String
  images : Option (List String)
  score : Int
  scores : Option (Int × Int)
  page : Nat
  bbox : Option (List Int)
deriving DecidableEq, Repr

inductive StreamData
  | queries (qs : List String)
  | chunks (cs : List RawChunk)
  | token (t : String)
  | done (t : String)
  | error (e : String)
  | unknown
deriving DecidableEq, Repr

inductive CBEvent
  | onQueries (qs : List String)
  | onChunks (cs : List RawChunk)
  | onToken (t : String)
  | onDone (t : String)
  | onError (e : String)
deriving DecidableEq, Repr

/-- The `switch (data.type)` body: every case invokes its callback and
`break`s to the next line; no case stops the loop. -/
def dispatchData : StreamData → List CBEvent
  | .queries qs => [.onQueries qs]
  | .chunks cs => [.onChunks cs]
  | .token t => [.onToken t]
  | .done t => [.onDone t]
  | .error e => [.onError e]
  | .unknown => []

/-- The `for (const line of lines)` loop over decoded payloads. -/
def dispatchPayloads : List StreamData → List CBEvent
  | [] => []
  | d :: ds => dispatchData d ++ dispatchPayloads ds

def sseDataTag : List Char := "data: ".data

/-- Per-line decoding: `if (line.startsWith('data: '))` then
`JSON.parse(line.slice(6))` (the parameter `parse`). -/
def decodeLine (parse : List Char → Option StreamData) (line : List Char) :
    Option StreamData :=
  if sseDataTag.isPrefixOf line then parse (line.drop 6) else none

/-- The callback events produced by an established `chatQueryStream`
transport delivering `chunks` and then ending. -/
def chatStreamEvents (parse : List Char → Option StreamData)
    (chunks : List (List Char)) : List CBEvent :=
  dispatchPayloads ((feedChunks [] chunks).1.filterMap (decodeLine parse))

/-- Terminal callbacks of a turn: `onDone` or `onError`. -/
def isTerminal : CBEvent → Bool
  | .onDone _ => true
  | .onError _ => true
  | _ => false

/-- The terminal event (if any) produced by one decoded payload. -/
def termOf : StreamData → Option CBEvent
  | .done t => some (.onDone t)
  | .error e => some (.onError e)
  | _ => none

/-! ## The `onChunks` handler of `sendMessage` (useRAG.ts lines 185–201)

The handler maps each received chunk to the message shape and sorts with
`.sort((a, b) => b.score - a.score)`.  ECMAScript `Array.prototype.sort` is
stable, so the result is the stable descending sort by score, modelled here
as insertion sort placing a later arrival after every earlier arrival of
greater-or-equal score. -/

structure MappedChunk where
  id : String
  content : String
  images : List String
  score : Int
  scores : Option (Int × Int)
  page : Nat
  bbox : Option (List Int)
deriving DecidableEq, Repr

/-- The `.map((chunk) => ({...}))` step: `images: chunk.images || []`,
other fields copied. -/
def mapChunk (c : RawChunk) : MappedChunk :=
  { id := c.id, content := c.content, images := c.images.getD [],
    score := c.score, scores := c.scores, page := c.page, bbox := c.bbox }

def insertByScoreDesc (x : MappedChunk) : List MappedChunk → List MappedChunk
  | [] => [x]
  | y :: ys =>
    if y.score ≤ x.score then x :: y :: ys else y :: insertByScoreDesc x ys

def jsSortByScoreDesc : List MappedChunk → List MappedChunk
  | [] => []
  | x :: xs => insertByScoreDesc x (jsSortByScoreDesc xs)

/-- The value stored into `retrievedChunks` by the `onChunks` handler. -/
def onChunksUpdate (cs : List RawChunk) : List MappedChunk :=
  jsSortByScoreDesc (cs.map mapChunk)

/-! ## Conversation messages (types and messageService.ts)

`generateId()` (whose defining file `utils/helpers.ts` is not part of the
sources here) and `new Date()` are environment-supplied fresh values; the
constructors below take them as explicit arguments. -/

inductive Role
  | user
  | assistant
deriving DecidableEq, Repr

structure Message where
  id : String
  role : Role
  content : String
  timestamp : Nat
  retrievedChunks : Option (List MappedChunk)
deriving DecidableEq, Repr

/-- Constructor `createAssistantMessage(content, retrievedChunks?)`. -/
def createAssistantMessageWith (id : String) (ts : Nat) (content : String)
    (retrievedChunks : Option (List MappedChunk)) : Message :=
  { id := id, role := .assistant, content := content, timestamp := ts,
    retrievedChunks := retrievedChunks }

/-- Constructor `createErrorMessage(errorMessage)` delegates to
`createAssistantMessage` with no chunks. -/
def createErrorMessageWith (id : String) (ts : Nat) (errorMessage : String) :
    Message :=
  createAssistantMessageWith id ts errorMessage none

/-- The `onError` callback of `sendMessage` (useRAG.ts lines 222–229) and
the `catch` block (lines 231–243) update the message list identically:
first `setMessages(prev => prev.filter(msg => msg.id !== streamingMsgId))`,
then `setMessages(prev => [...prev, errorMsg])`. -/
def sendMessageOnError (streamingMsgId : String) (errMsg : Message)
    (ms : List Message) : List Message :=
  (ms.filter fun m => m.id != streamingMsgId) ++ [errMsg]

/-! ## The `useRAG` hook state and the WebSocket handler (useRAG.ts) -/

structure PipelineMetrics where
  elements : Int
  chunks : Int
  images : Int
  tables : Int
deriving DecidableEq, Repr

/-- A `PartitionElement` of types.ts (`prob : number` modelled as `Int`). -/
structure PartitionElement where
  type : String
  text : String
  prob : Int
  page : Nat
deriving DecidableEq, Repr

/-- A `Chunk` of types.ts. -/
structure Chunk where
  id : String
  type : String
  content : String
  originalContent : String
  images : List String
  tables : List String
  page : Nat
  score : Int
  scores : Int × Int
deriving DecidableEq, Repr

/-- The state held by `useRAG` in `useState` cells. -/
structure HookState where
  pipelineStatus : String
  uploadedFile : Option String
  metrics : PipelineMetrics
  realElements : List PartitionElement
  realChunks : List Chunk
  messages : List Message
  isTyping : Bool
  expandedQueries : List String
deriving DecidableEq, Repr

/-- The initial `useState` values of the hook. -/
def initialHookState : HookState :=
  { pipelineStatus := "idle", uploadedFile := none,
    metrics := ⟨0, 0, 0, 0⟩, realElements := [], realChunks := [],
    messages := [], isTyping := false, expandedQueries := [] }

/-- A parsed WebSocket envelope.  `stage = some st` models
`typeof msg.stage === 'string'`; `count = some n` models
`typeof msg.count === 'number'`, and so on for the optional fields. -/
structure Envelope where
  type : String
  stage : Option String
  status : Option String
  count : Option Int
  images : Option Int
  tables : Option Int
deriving DecidableEq, Repr

/-- JavaScript `String.toLowerCase()` / `String.toUpperCase()` as per-character maps. -/
def jsToLower (s : String) : String := ⟨s.data.map Char.toLower⟩

def jsToUpper (s : String) : String := ⟨s.data.map Char.toUpper⟩

/-- The stage-string whitelist of the `onmessage` handler
(useRAG.ts lines 63–70). -/
def recognizedStage (stage : String) : Bool :=
  stage == "uploading" || stage == "partitioning" || stage == "chunking" ||
  stage == "summarizing" || stage == "vectorizing" || stage == "complete"

/-- The call `setPipelineStatus(stage)` guarded only by the whitelist
(useRAG.ts lines 63–72): no comparison against the current stage. -/
def applyStage (s : HookState) (stage : String) : HookState :=
  if recognizedStage stage then { s with pipelineStatus := stage } else s

/-- Count updates (useRAG.ts lines 75–81). -/
def applyCount (s : HookState) (stage : String) (m : Envelope) : HookState :=
  if m.status = some "complete" then
    match m.count with
    | some n =>
      if stage = "partitioning" then
        { s with metrics := { s.metrics with elements := n } }
      else if stage = "chunking" then
        { s with metrics := { s.metrics with chunks := n } }
      else s
    | none => s
  else s

/-- Image/table counts from the COMPLETE envelope (useRAG.ts lines 84–91). -/
def applyCompleteMetrics (s : HookState) (stage : String) (m : Envelope) :
    HookState :=
  if stage = "complete" ∧ m.status = some "complete" then
    let s1 :=
      match m.images with
      | some i => { s with metrics := { s.metrics with images := i } }
      | none => s
    match m.tables with
    | some t => { s1 with metrics := { s1.metrics with tables := t } }
    | none => s1
  else s

/-- The whole `ws.onmessage` handler (useRAG.ts lines 57–93). -/
def wsOnMessage (s : HookState) (m : Envelope) : HookState :=
  if m.type = "pipeline" then
    match m.stage with
    | some st =>
      let stage := jsToLower st
      applyCompleteMetrics (applyCount (applyStage s stage) stage m) stage m
    | none => s
  else s

/-- Folding a sequence of envelopes through the handler. -/
def wsRun (s : HookState) : List Envelope → HookState
  | [] => s
  | m :: ms => wsRun (wsOnMessage s m) ms

/-- A pipeline envelope carrying only a stage, as broadcast live. -/
def stageEnvelope (st : String) : Envelope :=
  { type := "pipeline", stage := some st, status := none, count := none,
    images := none, tables := none }

/-- The canonical stage order of the spec (and of `PIPELINE_STEPS`). -/
def stageRank : String → Option Nat
  | "idle" => some 0
  | "uploading" => some 1
  | "partitioning" => some 2
  | "chunking" => some 3
  | "summarizing" => some 4
  | "vectorizing" => some 5
  | "complete" => some 6
  | _ => none

/-- The `resetState` action (useRAG.ts lines 246–254). -/
def resetState (s : HookState) : HookState :=
  { s with
    messages := []
    uploadedFile := none
    pipelineStatus := "idle"
    metrics := ⟨0, 0, 0, 0⟩
    realElements := []
    realChunks := []
    expandedQueries := [] }

/-! ## Reconnect backoff (useRAG.ts lines 49–115)

`ws.onopen` resets `retryCount` to 0; `ws.onclose` schedules a reconnect
after `Math.min(1000 * Math.pow(2, retryCount), 10000)` milliseconds and
then increments `retryCount`; `ws.onerror` only calls `ws.close()`, so it
funnels into the close path. -/

inductive WsEvent
  | opened
  | closed
deriving DecidableEq, Repr

/-- The delay `Math.min(1000 * Math.pow(2, retryCount), 10000)`. -/
def backoffDelay (retryCount : Nat) : Nat :=
  min (1000 * 2 ^ retryCount) 10000

/-- One transport event: the new `retryCount` and the scheduled delay
(if any). -/
def wsRetryStep (retryCount : Nat) : WsEvent → Nat × Option Nat
  | .opened => (0, none)
  | .closed => (retryCount + 1, some (backoffDelay retryCount))

/-- The sequence of reconnect delays scheduled along a run of transport
events, starting from a given `retryCount`. -/
def wsRetryDelays (retryCount : Nat) : List WsEvent → List Nat
  | [] => []
  | e :: es =>
    match wsRetryStep retryCount e with
    | (rc, none) => wsRetryDelays rc es
    | (rc, some d) => d :: wsRetryDelays rc es

/-! ## `mapStepStatus` (utils/index.ts lines 10–32) -/

inductive StepStatus
  | pending
  | active
  | complete
deriving DecidableEq, Repr

/-- The `ORDER` array of `mapStepStatus`. -/
def STEP_ORDER : List String :=
  ["UPLOADING", "PARTITIONING", "CHUNKING", "SUMMARIZING", "VECTORIZING",
   "COMPLETE"]

/-- JavaScript `Array.prototype.indexOf`: first index, or −1 when absent. -/
def jsIndexOf : List String → String → Int
  | [], _ => -1
  | a :: rest, x =>
    if x = a then 0
    else if jsIndexOf rest x < 0 then -1 else jsIndexOf rest x + 1

def mapStepStatus (current step : String) : StepStatus :=
  if step = "securing" ∨ step = "orchestrating" then
    if jsIndexOf STEP_ORDER (jsToUpper current) > 0 then .complete
    else .pending
  else
    if jsIndexOf STEP_ORDER (jsToUpper current) < 0 ∨
        jsIndexOf STEP_ORDER (jsToUpper step) < 0 then .pending
    else if jsIndexOf STEP_ORDER (jsToUpper current) <
        jsIndexOf STEP_ORDER (jsToUpper step) then .pending
    else if jsIndexOf STEP_ORDER (jsToUpper current) =
        jsIndexOf STEP_ORDER (jsToUpper step) then .active
    else .complete

/-! ## Outbound request construction (client.ts lines 28–45 and 66–81) -/

inductive RequestBody
  /-- A `FormData` body with the single entry `formData.append('file', file)`. -/
  | formDataFile (fileName : String)
  /-- A body of the form `JSON.stringify({ query })`. -/
  | jsonQuery (query : String)
deriving DecidableEq, Repr

structure FetchRequest where
  url : String
  method : String
  headers : List (String × String)
  body : RequestBody
deriving DecidableEq, Repr

/-- The `fetch` call of `uploadFile`. -/
def uploadRequest (baseUrl fileName : String) : FetchRequest :=
  { url := baseUrl ++ "/ingest", method := "POST", headers := [],
    body := .formDataFile fileName }

/-- The `fetch` call of `chatQueryStream`. -/
def chatStreamRequest (baseUrl query : String) : FetchRequest :=
  { url := baseUrl ++ "/chat/stream", method := "POST",
    headers := [("Content-Type", "application/json")],
    body := .jsonQuery query }

/-! ## Sample data for concrete counterexamples -/

def sampleLowChunk : RawChunk :=
  { id := "a", content := "low", images := none, score := 1, scores := none,
    page := 1, bbox := none }

def sampleHighChunk : RawChunk :=
  { id := "b", content := "high", images := none, score := 2, scores := none,
    page := 1, bbox := none }

/-- A state mid-ingestion, used to exercise `resetState`. -/
def preResetState : HookState :=
  { pipelineStatus := "complete", uploadedFile := some "doc.pdf",
    metrics := ⟨10, 5, 2, 1⟩, realElements := [], realChunks := [],
    messages := [], isTyping := false, expandedQueries := ["q1"] }

/-! # Helper lemmas -/

theorem splitNl_cons (c : Char) (rest : List Char) :
    splitNl (c :: rest) =
      if c = '\n' then ([] :: (splitNl rest).1, (splitNl rest).2)
      else
        match (splitNl rest).1 with
        | [] => ([], c :: (splitNl rest).2)
        | l :: ls => ((c :: l) :: ls, (splitNl rest).2) := by
  rfl

/-- The remainder kept in the buffer never contains a separator. -/
theorem splitNl_rest_no_nl (s : List Char) : ∀ c ∈ (splitNl s).2, c ≠ '\n' := by
  induction s with
  | nil => intro c hc; simp [splitNl] at hc
  | cons a rest ih =>
    intro c hc
    rw [splitNl_cons] at hc
    by_cases ha : a = '\n'
    · simp [ha] at hc; exact ih c hc
    · simp [ha] at hc
      cases h1 : (splitNl rest).1 with
      | nil =>
        rw [h1] at hc; simp at hc
        rcases hc with hc | hc
        · subst hc; exact ha
        · exact ih c hc
      | cons l ls =>
        rw [h1] at hc; simp at hc
        exact ih c hc

/-- A separator-free text emits no frame and stays buffered whole. -/
theorem splitNl_no_nl (s : List Char) (h : ∀ c ∈ s, c ≠ '\n') :
    splitNl s = ([], s) := by
  induction s with
  | nil => rfl
  | cons a rest ih =>
    have ha : a ≠ '\n' := h a (by simp)
    have hrest : ∀ c ∈ rest, c ≠ '\n' := fun c hc => h c (by simp [hc])
    rw [splitNl_cons]
    simp [ha, ih hrest]

/-- Splitting distributes over concatenation: the frames of `s ++ t` are the
frames of `s` followed by the frames of `s`'s remainder fed with `t`. -/
theorem splitNl_append (s t : List Char) :
    splitNl (s ++ t) =
      ((splitNl s).1 ++ (splitNl ((splitNl s).2 ++ t)).1,
       (splitNl ((splitNl s).2 ++ t)).2) := by
  induction s with
  | nil => simp [splitNl]
  | cons c s' ih =>
    by_cases hc : c = '\n'
    · subst hc
      rw [List.cons_append, splitNl_cons, splitNl_cons]
      simp [ih]
    · rw [List.cons_append, splitNl_cons, splitNl_cons, ih]
      simp only [if_neg hc]
      cases h1 : (splitNl s').1 with
      | cons l ls => simp
      | nil =>
        simp only [List.nil_append]
        cases h2 : (splitNl ((splitNl s').2 ++ t)).1 with
        | nil =>
          rw [List.cons_append, splitNl_cons]
          simp [if_neg hc, h2]
        | cons a as =>
          rw [List.cons_append, splitNl_cons]
          simp [if_neg hc, h2]

/-- Feeding chunk-by-chunk from a separator-free buffer equals feeding the
concatenation at once. -/
theorem feedChunks_eq_splitNl (cs : List (List Char)) :
    ∀ buf : List Char, (∀ c ∈ buf, c ≠ '\n') →
      feedChunks buf cs = splitNl (buf ++ cs.flatten) := by
  induction cs with
  | nil =>
    intro buf hbuf
    simp [feedChunks, splitNl_no_nl buf hbuf]
  | cons c cs ih =>
    intro buf hbuf
    have hrest := splitNl_rest_no_nl (buf ++ c)
    have : feedChunks buf (c :: cs) =
        ((feed buf c).1 ++ (feedChunks (feed buf c).2 cs).1,
         (feedChunks (feed buf c).2 cs).2) := rfl
    rw [this, ih (feed buf c).2 hrest]
    have happ := splitNl_append (buf ++ c) cs.flatten
    simp only [feed]
    rw [show buf ++ (c :: cs).flatten = (buf ++ c) ++ cs.flatten by simp,
      happ]

theorem dispatchPayloads_append (ps qs : List StreamData) :
    dispatchPayloads (ps ++ qs) = dispatchPayloads ps ++ dispatchPayloads qs := by
  induction ps with
  | nil => rfl
  | cons d ds ih => simp [dispatchPayloads, ih]

theorem mem_insertByScoreDesc (x z : MappedChunk) (l : List MappedChunk) :
    z ∈ insertByScoreDesc x l ↔ z = x ∨ z ∈ l := by
  induction l with
  | nil => simp [insertByScoreDesc]
  | cons y ys ih =>
    by_cases h : y.score ≤ x.score
    · simp [insertByScoreDesc, h]
    · simp [insertByScoreDesc, h, ih]
      tauto

theorem pairwise_insertByScoreDesc (x : MappedChunk) (l : List MappedChunk)
    (hl : List.Pairwise (fun a b => b.score ≤ a.score) l) :
    List.Pairwise (fun a b => b.score ≤ a.score) (insertByScoreDesc x l) := by
  induction l with
  | nil => simp [insertByScoreDesc]
  | cons y ys ih =>
    rcases List.pairwise_cons.mp hl with ⟨hy, hys⟩
    by_cases h : y.score ≤ x.score
    · simp only [insertByScoreDesc, if_pos h]
      refine List.pairwise_cons.mpr ⟨?_, hl⟩
      intro z hz
      rcases List.mem_cons.mp hz with hz1 | hz1
      · subst hz1; exact h
      · exact le_trans (hy z hz1) h
    · simp only [insertByScoreDesc, if_neg h]
      refine List.pairwise_cons.mpr ⟨?_, ih hys⟩
      intro z hz
      rcases (mem_insertByScoreDesc x z ys).mp hz with hz1 | hz1
      · subst hz1; exact le_of_not_le h
      · exact hy z hz1

theorem pairwise_jsSortByScoreDesc (l : List MappedChunk) :
    List.Pairwise (fun a b => b.score ≤ a.score) (jsSortByScoreDesc l) := by
  induction l with
  | nil => simp [jsSortByScoreDesc]
  | cons x xs ih => exact pairwise_insertByScoreDesc x _ ih

theorem filter_insertByScoreDesc (x : MappedChunk) (l : List MappedChunk)
    (s : Int) :
    (insertByScoreDesc x l).filter (fun c => c.score == s) =
      if x.score = s then x :: l.filter (fun c => c.score == s)
      else l.filter (fun c => c.score == s) := by
  induction l with
  | nil =>
    by_cases hx : x.score = s <;>
      simp [insertByScoreDesc, List.filter_cons, hx]
  | cons y ys ih =>
    by_cases h : y.score ≤ x.score
    · rw [insertByScoreDesc, if_pos h]
      by_cases hx : x.score = s
      · rw [if_pos hx]
        simp [List.filter_cons, hx]
      · rw [if_neg hx]
        simp [List.filter_cons, hx]
    · rw [insertByScoreDesc, if_neg h]
      have hlt : x.score < y.score := lt_of_not_le h
      by_cases hy : y.score = s
      · have hx : ¬ x.score = s := by
          intro hx
          rw [hx] at hlt; rw [hy] at hlt
          exact lt_irrefl s hlt
        rw [if_neg hx]
        simp [List.filter_cons, hy, hx, ih]
      · by_cases hx : x.score = s
        · rw [if_pos hx]
          simp [List.filter_cons, hy, hx, ih]
        · rw [if_neg hx]
          simp [List.filter_cons, hy, hx, ih]

theorem filter_jsSortByScoreDesc (l : List MappedChunk) (s : Int) :
    (jsSortByScoreDesc l).filter (fun c => c.score == s) =
      l.filter (fun c => c.score == s) := by
  induction l with
  | nil => rfl
  | cons x xs ih =>
    by_cases hx : x.score = s
    · simp [jsSortByScoreDesc, filter_insertByScoreDesc, hx, List.filter_cons, ih]
    · simp [jsSortByScoreDesc, filter_insertByScoreDesc, hx, List.filter_cons, ih]

theorem applyCount_pipelineStatus (s : HookState) (stage : String)
    (m : Envelope) : (applyCount s stage m).pipelineStatus = s.pipelineStatus := by
  unfold applyCount
  by_cases h : m.status = some "complete"
  · rw [if_pos h]
    cases m.count with
    | none => rfl
    | some n =>
      by_cases h1 : stage = "partitioning"
      · simp [h1]
      · by_cases h2 : stage = "chunking" <;> simp [h1, h2]
  · rw [if_neg h]

theorem applyCompleteMetrics_pipelineStatus (s : HookState) (stage : String)
    (m : Envelope) :
    (applyCompleteMetrics s stage m).pipelineStatus = s.pipelineStatus := by
  unfold applyCompleteMetrics
  by_cases h : stage = "complete" ∧ m.status = some "complete"
  · rw [if_pos h]
    cases m.images with
    | none => cases m.tables with | none => rfl | some t => rfl
    | some i => cases m.tables with | none => rfl | some t => rfl
  · rw [if_neg h]

theorem wsOnMessage_pipelineStatus (s : HookState) (m : Envelope)
    (st : String) (hty : m.type = "pipeline") (hst : m.stage = some st) :
    (wsOnMessage s m).pipelineStatus =
      if recognizedStage (jsToLower st) then jsToLower st
      else s.pipelineStatus := by
  unfold wsOnMessage
  rw [if_pos hty, hst]
  rw [applyCompleteMetrics_pipelineStatus, applyCount_pipelineStatus]
  unfold applyStage
  by_cases h : recognizedStage (jsToLower st) = true
  · rw [if_pos h, if_pos h]
  · rw [if_neg h, if_neg h]

theorem jsIndexOf_nonneg_iff (l : List String) (x : String) :
    0 ≤ jsIndexOf l x ↔ x ∈ l := by
  induction l with
  | nil => simp [jsIndexOf]
  | cons a rest ih =>
    by_cases hx : x = a
    · simp [jsIndexOf, hx]
    · have hdef : jsIndexOf (a :: rest) x =
          if jsIndexOf rest x < 0 then -1 else jsIndexOf rest x + 1 := by
        simp [jsIndexOf, hx]
      rw [hdef, List.mem_cons, ← ih]
      split_ifs with hr
      · simp only [hx, false_or]
        omega
      · simp only [hx, false_or]
        omega

theorem jsIndexOf_pos_iff (a : String) (rest : List String) (x : String) :
    0 < jsIndexOf (a :: rest) x ↔ x ≠ a ∧ x ∈ rest := by
  by_cases hx : x = a
  · simp [jsIndexOf, hx]
  · have hdef : jsIndexOf (a :: rest) x =
        if jsIndexOf rest x < 0 then -1 else jsIndexOf rest x + 1 := by
      simp [jsIndexOf, hx]
    rw [hdef, ← jsIndexOf_nonneg_iff]
    simp only [ne_eq, hx, not_false_iff, true_and]
    split_ifs with hr <;> omega

theorem wsRetryDelays_replicate_closed (n : Nat) :
    ∀ rc : Nat, wsRetryDelays rc (List.replicate n .closed) =
      (List.range n).map (fun i => backoffDelay (rc + i)) := by
  induction n with
  | zero => intro rc; rfl
  | succ n ih =>
    intro rc
    rw [List.replicate_succ, List.range_succ_eq_map]
    have : wsRetryDelays rc (WsEvent.closed :: List.replicate n .closed) =
        backoffDelay rc :: wsRetryDelays (rc + 1) (List.replicate n .closed) :=
      rfl
    rw [this, ih (rc + 1)]
    simp only [List.map_cons, Nat.add_zero, List.map_map]
    congr 1
    apply List.map_congr_left
    intro i _
    simp only [Function.comp_apply]
    congr 1
    omega

theorem perm_insertByScoreDesc (x : MappedChunk) (l : List MappedChunk) :
    List.Perm (insertByScoreDesc x l) (x :: l) := by
  induction l with
  | nil => simp [insertByScoreDesc]
  | cons y ys ih =>
    by_cases h : y.score ≤ x.score
    · simp [insertByScoreDesc, h]
    · simp only [insertByScoreDesc, if_neg h]
      exact (ih.cons y).trans (List.Perm.swap x y ys)

theorem perm_jsSortByScoreDesc (l : List MappedChunk) :
    List.Perm (jsSortByScoreDesc l) l := by
  induction l with
  | nil => simp [jsSortByScoreDesc]
  | cons x xs ih =>
    exact (perm_insertByScoreDesc x (jsSortByScoreDesc xs)).trans (ih.cons x)

/-! # Claim theorems -/

/-- C4: feeding the raw stream split into any number of chunks at arbitrary
offsets through `chatQueryStream`'s buffer loop emits the same complete
frames, leaves the same unterminated remainder buffered, and therefore
dispatches the same sequence of decoded payloads as feeding the whole input
in a single chunk. -/
theorem chatQueryStream_chunking_invariant :
    ∀ (parse : List Char → Option StreamData) (chunks : List (List Char)),
      feedChunks [] chunks = feedChunks [] [chunks.flatten] ∧
      chatStreamEvents parse chunks = chatStreamEvents parse [chunks.flatten] := by
  intro parse chunks
  have h0 : ∀ c ∈ ([] : List Char), c ≠ '\n' := by simp
  have h1 := feedChunks_eq_splitNl chunks [] h0
  have h2 := feedChunks_eq_splitNl [chunks.flatten] [] h0
  have h3 : ([chunks.flatten] : List (List Char)).flatten = chunks.flatten := by
    simp
  rw [h3] at h2
  refine ⟨h1.trans h2.symm, ?_⟩
  unfold chatStreamEvents
  rw [h1, h2]

/-- C1 is refuted: with the transport established, a stream that delivers a
single token payload and then closes without a Done/sentinel frame fires
`onToken` only — no `onDone` (zero invocations, not one) and no terminal
callback at all. -/
theorem stream_end_without_done_counterexample :
    dispatchPayloads [StreamData.token "hi"] = [CBEvent.onToken "hi"] ∧
    (dispatchPayloads [StreamData.token "hi"]).filter
      (fun e => isTerminal e) = [] := by
  decide

/-- C1 (amended): terminal callbacks arise exactly from explicit done/error
payloads, each with the payload's own text (the client keeps no token
accumulator); a turn whose stream ends without such a payload ends with no
terminal callback. -/
theorem stream_terminal_callbacks_exact :
    ∀ ps : List StreamData,
      (dispatchPayloads ps).filter (fun e => isTerminal e) =
        ps.filterMap termOf := by
  intro ps
  induction ps with
  | nil => rfl
  | cons d ds ih =>
    have happ : dispatchPayloads (d :: ds) =
        dispatchData d ++ dispatchPayloads ds := rfl
    rw [happ, List.filter_append, ih]
    cases d <;> rfl

/-- C2 is refuted: after an error payload the loop keeps processing; a token
payload following the error still invokes `onToken`. -/
theorem error_payload_counterexample :
    dispatchPayloads
        [StreamData.error "backend unavailable", StreamData.token "x"] =
      [CBEvent.onError "backend unavailable", CBEvent.onToken "x"] ∧
    CBEvent.onToken "x" ∈
      dispatchPayloads
        [StreamData.error "backend unavailable", StreamData.token "x"] := by
  decide

/-- C2 (amended): an error payload invokes `onError` with its message, but
processing of the stream does not stop: every payload after the error still
dispatches its callback. -/
theorem error_payload_dispatch_continues :
    ∀ (pre post : List StreamData) (e : String),
      dispatchPayloads (pre ++ StreamData.error e :: post) =
        dispatchPayloads pre ++ CBEvent.onError e :: dispatchPayloads post := by
  intro pre post e
  rw [dispatchPayloads_append]
  rfl

/-- C5 is refuted: `chatQueryStream` passes the decoded chunk list to
`onChunks` as received, without sorting; a list arriving in ascending score
order reaches the consumer unsorted. -/
theorem onChunks_unsorted_counterexample :
    CBEvent.onChunks [sampleLowChunk, sampleHighChunk] ∈
      dispatchPayloads [StreamData.chunks [sampleLowChunk, sampleHighChunk]] ∧
    ¬ List.Pairwise (fun a b : RawChunk => b.score ≤ a.score)
      [sampleLowChunk, sampleHighChunk] := by
  decide

/-- C5 (amended): the raw list is passed to `onChunks` unsorted; the
`onChunks` handler of `sendMessage` then stores on the message a permutation
of the mapped arrivals that is sorted descending by score, with equal scores
kept in arrival order (ECMAScript sort is stable). -/
theorem onChunksUpdate_sorted_stable :
    ∀ cs : List RawChunk,
      List.Pairwise (fun a b => b.score ≤ a.score) (onChunksUpdate cs) ∧
      List.Perm (onChunksUpdate cs) (cs.map mapChunk) ∧
      ∀ s : Int,
        (onChunksUpdate cs).filter (fun c => c.score == s) =
          (cs.map mapChunk).filter (fun c => c.score == s) := by
  intro cs
  exact ⟨pairwise_jsSortByScoreDesc _, perm_jsSortByScoreDesc _,
    fun s => filter_jsSortByScoreDesc _ s⟩

/-- C3 is refuted: the `onmessage` handler applies any recognized stage in
arrival order with no forward-only guard — after observing `vectorizing`
(rank 5), an envelope naming the earlier stage `partitioning` (rank 2)
overwrites the observed stage instead of being ignored. -/
theorem stage_regression_counterexample :
    (wsOnMessage initialHookState
        (stageEnvelope "vectorizing")).pipelineStatus = "vectorizing" ∧
    (wsRun initialHookState
        [stageEnvelope "vectorizing",
         stageEnvelope "partitioning"]).pipelineStatus = "partitioning" ∧
    stageRank "partitioning" = some 2 ∧ stageRank "vectorizing" = some 5 := by
  decide

/-- C3 (amended): the handler sets the observed stage to the lower-cased
envelope stage whenever that is one of the six recognized strings,
regardless of the currently observed stage; unrecognized stage strings and
non-pipeline envelopes leave the state's stage unchanged. -/
theorem live_stage_overwrite :
    ∀ (s : HookState) (m : Envelope),
      (m.type = "pipeline" → ∀ st, m.stage = some st →
        (wsOnMessage s m).pipelineStatus =
          (if recognizedStage (jsToLower st) then jsToLower st
           else s.pipelineStatus)) ∧
      (m.type ≠ "pipeline" → wsOnMessage s m = s) := by
  intro s m
  constructor
  · intro hty st hst
    exact wsOnMessage_pipelineStatus s m st hty hst
  · intro hty
    unfold wsOnMessage
    rw [if_neg hty]

theorem live_stage_overwrite_witness :
    (wsOnMessage initialHookState
        (stageEnvelope "Partitioning")).pipelineStatus = "partitioning" := by
  have h := (live_stage_overwrite initialHookState
    (stageEnvelope "Partitioning")).1 rfl "Partitioning" rfl
  rw [h]
  decide

/-- C6: after any successful connect the retry counter is reset to 0, so the
n-th reconnect delay of the run of connection losses that follows is
`min(1000 · 2^n, 10000)` milliseconds — concretely 1, 2, 4, 8, 10, 10, …
seconds. -/
theorem reconnect_backoff_sequence :
    (∀ rc n : Nat,
      wsRetryDelays rc (WsEvent.opened :: List.replicate n .closed) =
        (List.range n).map backoffDelay) ∧
    (List.range 6).map backoffDelay =
      [1000, 2000, 4000, 8000, 10000, 10000] := by
  constructor
  · intro rc n
    have h : wsRetryDelays rc (WsEvent.opened :: List.replicate n .closed) =
        wsRetryDelays 0 (List.replicate n .closed) := rfl
    rw [h, wsRetryDelays_replicate_closed]
    simp
  · decide

/-- C7 is refuted in its second half: there is no epoch mechanism, so the
`onmessage` subscription registered at mount (necessarily under the
pre-reset "epoch") keeps mutating the state after a reset — here a stale
`vectorizing` envelope processed after the reset drags the freshly reset
stage away from Idle. -/
theorem reset_stale_event_counterexample :
    (resetState preResetState).pipelineStatus = "idle" ∧
    (resetState preResetState).metrics = ⟨0, 0, 0, 0⟩ ∧
    (wsOnMessage (resetState preResetState)
        (stageEnvelope "vectorizing")).pipelineStatus = "vectorizing" := by
  decide

/-- C7 (amended): `resetState` always forces the stage to Idle and clears
metrics, evidence and expansion state; but events processed after the reset
are not discarded — the handler treats them exactly as before the reset. -/
theorem resetState_clears :
    ∀ s : HookState,
      (resetState s).pipelineStatus = "idle" ∧
      (resetState s).metrics = ⟨0, 0, 0, 0⟩ ∧
      (resetState s).messages = [] ∧
      (resetState s).uploadedFile = none ∧
      (resetState s).realElements = [] ∧
      (resetState s).realChunks = [] ∧
      (resetState s).expandedQueries = [] := by
  intro s
  exact ⟨rfl, rfl, rfl, rfl, rfl, rfl, rfl⟩

/-- C8 is refuted: the outbound requests carry no session identifier at all —
the streaming query request consists of exactly the JSON query body and a
Content-Type header, and the upload request of exactly the file form data
with no custom header; no `getOrCreateId` value is attached anywhere. -/
theorem session_identity_counterexample :
    chatStreamRequest "http://localhost:8000" "hello" =
      { url := "http://localhost:8000/chat/stream", method := "POST",
        headers := [("Content-Type", "application/json")],
        body := .jsonQuery "hello" } ∧
    uploadRequest "http://localhost:8000" "doc.pdf" =
      { url := "http://localhost:8000/ingest", method := "POST",
        headers := [], body := .formDataFile "doc.pdf" } := by
  decide

/-- C8 (amended): for every base URL, query and file, the streaming query
request carries only the Content-Type header and the JSON-encoded query,
and the upload request carries no header and only the file form data — no
session identifier is attached on either channel. -/
theorem outbound_requests_no_session :
    ∀ baseUrl q f : String,
      (chatStreamRequest baseUrl q).headers =
        [("Content-Type", "application/json")] ∧
      (chatStreamRequest baseUrl q).body = .jsonQuery q ∧
      (uploadRequest baseUrl f).headers = [] ∧
      (uploadRequest baseUrl f).body = .formDataFile f := by
  intro baseUrl q f
  exact ⟨rfl, rfl, rfl, rfl⟩

/-- C9: when a streaming turn fails, the `onError` callback (and identically
the `catch` block) removes every message of the in-flight turn — the
placeholder and any partially streamed update share the turn's id — and
appends exactly one error message. -/
theorem sendMessage_error_cleanup :
    ∀ (sid errId : String) (ts : Nat) (errText : String) (ms : List Message),
      errId ≠ sid →
      (∀ m ∈ sendMessageOnError sid
          (createErrorMessageWith errId ts errText) ms, m.id ≠ sid) ∧
      sendMessageOnError sid (createErrorMessageWith errId ts errText) ms =
        (ms.filter fun m => m.id != sid) ++
          [createErrorMessageWith errId ts errText] ∧
      (sendMessageOnError sid
          (createErrorMessageWith errId ts errText) ms).length =
        (ms.filter fun m => m.id != sid).length + 1 := by
  intro sid errId ts errText ms hne
  refine ⟨?_, rfl, by simp [sendMessageOnError]⟩
  intro m hm
  rcases List.mem_append.mp hm with hm1 | hm1
  · have hp := List.of_mem_filter hm1
    simpa using hp
  · rcases List.mem_singleton.mp hm1 with rfl
    exact hne

theorem sendMessage_error_cleanup_witness :
    (sendMessageOnError "streaming-42"
        (createErrorMessageWith "err-1" 7 "boom")
        [{ id := "u-1", role := .user, content := "hi", timestamp := 1,
           retrievedChunks := none },
         { id := "streaming-42", role := .assistant, content := "",
           timestamp := 2, retrievedChunks := none }]).length =
      ([{ id := "u-1", role := .user, content := "hi", timestamp := 1,
          retrievedChunks := none },
        { id := "streaming-42", role := .assistant, content := "",
          timestamp := 2, retrievedChunks := none }].filter
        fun m : Message => m.id != "streaming-42").length + 1 :=
  (sendMessage_error_cleanup "streaming-42" "err-1" 7 "boom"
    [{ id := "u-1", role := .user, content := "hi", timestamp := 1,
       retrievedChunks := none },
     { id := "streaming-42", role := .assistant, content := "",
       timestamp := 2, retrievedChunks := none }] (by decide)).2.2

/-- C10: `mapStepStatus` is total; for the virtual steps `securing` and
`orchestrating` it never answers `active` and answers `complete` exactly
when the (upper-cased) current stage lies strictly past UPLOADING in the
canonical order, `pending` otherwise; and any current or step string
outside the canonical order yields `pending`. -/
theorem mapStepStatus_virtual_and_unknown :
    ∀ current step : String,
      ((step = "securing" ∨ step = "orchestrating") →
        mapStepStatus current step ≠ .active ∧
        (mapStepStatus current step = .complete ↔
          jsToUpper current ∈ STEP_ORDER.tail) ∧
        (mapStepStatus current step = .pending ↔
          jsToUpper current ∉ STEP_ORDER.tail)) ∧
      (jsToUpper current ∉ STEP_ORDER →
        mapStepStatus current step = .pending) ∧
      ((step ≠ "securing" ∧ step ≠ "orchestrating" ∧
          jsToUpper step ∉ STEP_ORDER) →
        mapStepStatus current step = .pending) := by
  intro current step
  have hposgen : ∀ v : String,
      0 < jsIndexOf STEP_ORDER v ↔ v ∈ STEP_ORDER.tail := by
    intro v
    have h1 := jsIndexOf_pos_iff "UPLOADING" STEP_ORDER.tail v
    constructor
    · intro h
      exact (h1.mp h).2
    · intro h
      refine h1.mpr ⟨?_, h⟩
      intro hv
      rw [hv] at h
      exact absurd h (by decide)
  have hneggen : ∀ v : String,
      jsIndexOf STEP_ORDER v < 0 ↔ v ∉ STEP_ORDER := by
    intro v
    rw [← jsIndexOf_nonneg_iff, not_le]
  refine ⟨?_, ?_, ?_⟩
  · intro hvirt
    unfold mapStepStatus
    rw [if_pos hvirt]
    by_cases hmem : jsToUpper current ∈ STEP_ORDER.tail
    · rw [if_pos ((hposgen _).mpr hmem)]
      refine ⟨by simp, by simp [hmem], by simp [hmem]⟩
    · rw [if_neg (fun h => hmem ((hposgen _).mp h))]
      refine ⟨by simp, by simp [hmem], by simp [hmem]⟩
  · intro hnot
    unfold mapStepStatus
    by_cases hvirt : step = "securing" ∨ step = "orchestrating"
    · rw [if_pos hvirt]
      have hnpos : ¬ 0 < jsIndexOf STEP_ORDER (jsToUpper current) := by
        intro h
        exact hnot (List.mem_cons_of_mem _ ((hposgen _).mp h))
      rw [if_neg hnpos]
    · rw [if_neg hvirt]
      rw [if_pos (Or.inl ((hneggen _).mpr hnot))]
  · intro hstep
    unfold mapStepStatus
    have hvirt : ¬ (step = "securing" ∨ step = "orchestrating") := by
      rcases hstep with ⟨h1, h2, _⟩
      intro h
      rcases h with h | h
      · exact h1 h
      · exact h2 h
    rw [if_neg hvirt]
    rw [if_pos (Or.inr ((hneggen _).mpr hstep.2.2))]

theorem mapStepStatus_witness :
    mapStepStatus "partitioning" "securing" = .complete ∧
    mapStepStatus "uploading" "orchestrating" = .pending ∧
    mapStepStatus "idle" "CHUNKING" = .pending ∧
    mapStepStatus "chunking" "weird-step" = .pending := by
  refine ⟨?_, ?_, ?_, ?_⟩
  · exact ((mapStepStatus_virtual_and_unknown "partitioning" "securing").1
      (Or.inl rfl)).2.1.mpr (by decide)
  · exact ((mapStepStatus_virtual_and_unknown "uploading" "orchestrating").1
      (Or.inr rfl)).2.2.mpr (by decide)
  · exact (mapStepStatus_virtual_and_unknown "idle" "CHUNKING").2.1
      (by decide)
  · exact (mapStepStatus_virtual_and_unknown "chunking" "weird-step").2.2
      ⟨by decide, by decide, by decide⟩

end DeepRecall
